import Mathlib

/-!
Verification of the PDF serializer in `utils_pdf.py` (repository vinabi/blogger).

The program is modelled as functions over codepoint sequences (`List Nat`):
Python strings become lists of Unicode codepoints and Python `bytes` become
lists of byte values.  Every definition is a direct transcription of the
corresponding Python source (file `src/utils_pdf.py`); the CPython standard
library functions the source calls (`str.rstrip`, `str.lstrip`, `str.replace`,
`str.split`, `textwrap.wrap`) are transcribed from their CPython 3.11
implementations.
-/

namespace Blogger

/-- Codepoints of an ASCII string literal, used to transcribe Python string
literals compactly. -/
def A (s : String) : List Nat := s.data.map Char.toNat

/-- Python `str` whitespace predicate (`str.isspace`, the set stripped by
`str.strip`/`rstrip`/`lstrip` with no argument): ASCII 9-13, 28-31, 32 and
the Unicode space codepoints. -/
def pyIsSpace (c : Nat) : Bool :=
  (9 ≤ c && c ≤ 13) || (28 ≤ c && c ≤ 32) || c == 133 || c == 160 ||
  c == 5760 || (8192 ≤ c && c ≤ 8202) || c == 8232 || c == 8233 ||
  c == 8239 || c == 8287 || c == 12288

/-- Python `s.rstrip()`: remove trailing whitespace. -/
def pyRstrip (s : List Nat) : List Nat :=
  (s.reverse.dropWhile pyIsSpace).reverse

/-- Python `s.lstrip(chars)`: remove the maximal leading run of characters
drawn from the set `ks`. -/
def pyLstrip (ks : List Nat) (s : List Nat) : List Nat :=
  s.dropWhile (fun c => ks.contains c)

/-- Python `s.replace(k, v)` for a single-character pattern `k`: every
occurrence of the character `k` is replaced by the string `v`. -/
def strReplaceChar (s : List Nat) (k : Nat) (v : List Nat) : List Nat :=
  s.flatMap (fun c => if c == k then v else [c])

/-- Python `text.replace("\r\n", "\n")`: left-to-right, non-overlapping
replacement of the two-character sequence CR LF by LF
(source: `utils_pdf.py` line 17). -/
def replaceCRLF : List Nat → List Nat
  | 13 :: 10 :: rest => 10 :: replaceCRLF rest
  | c :: rest => c :: replaceCRLF rest
  | [] => []

/-- Source lines 18-19: `plain.replace(ch, "")` for `ch` ranging over
`["`"]`, i.e. deletion of every backtick (codepoint 96). -/
def removeBackticks (s : List Nat) : List Nat :=
  strReplaceChar s 96 []

/-- Python `s.split("\n")`: split at every LF, keeping empty pieces; the
split of the empty string is `[[]]` (source line 20). -/
def splitLF : List Nat → List (List Nat)
  | [] => [[]]
  | 10 :: rest => [] :: splitLF rest
  | c :: rest =>
    match splitLF rest with
    | [] => [[c]]
    | p :: ps => (c :: p) :: ps

/-- The replacement table of `_sanitize_for_pdf` (source lines 3-9), with
each key given by its codepoint, in the source's insertion order. -/
def sanitizeReplacements : List (Nat × List Nat) :=
  [ (0x201c, A "\""), (0x201d, A "\""), (0x201e, A "\""), (0x201f, A "\""),
    (0x2018, [39]), (0x2019, [39]), (0x201a, [39]), (0x201b, [39]),
    (0x2013, A "-"), (0x2014, A "-"), (0x2212, A "-"),
    (0x2022, A "-"), (0xb7, A "-"), (0x25ba, A ">"),
    (0x2192, A "->"), (0x2190, A "<-"), (0x2713, A "[ok]"),
    (0x2026, A "..."), (0x202f, A " "), (0x2002, A " "),
    (0x2003, A " "), (0xa0, A " ") ]

/-- `_sanitize_for_pdf` (source lines 2-13): apply the replacement table by
successive `str.replace` calls, then map every remaining codepoint that is
not below 128 to a question mark (codepoint 63). -/
def sanitize_for_pdf (s : List Nat) : List Nat :=
  (sanitizeReplacements.foldl (fun acc kv => strReplaceChar acc kv.1 kv.2) s).map
    (fun c => if c < 128 then c else 63)

/-- Source line 33: `raw.lstrip("# ").lstrip("* ").lstrip("- ").lstrip("> ")`.
Codepoints: 35 `#`, 42 `*`, 45 `-`, 62 `>`, 32 space. -/
def stripMarkers (raw : List Nat) : List Nat :=
  pyLstrip [62, 32] (pyLstrip [45, 32] (pyLstrip [42, 32] (pyLstrip [35, 32] raw)))

/-! ### CPython `textwrap.wrap` (called at source line 38 with `width=90`)

Transcription of `textwrap.TextWrapper` (CPython 3.11) with the default
options used by `textwrap.wrap`: `expand_tabs=True`, `tabsize=8`,
`replace_whitespace=True`, `drop_whitespace=True`, `break_long_words=True`,
`break_on_hyphens=True`, empty indents, `max_lines=None`.  The regex
character classes are transcribed for the ASCII range; the serializer only
ever calls `wrap` on sanitized text, whose codepoints are all below 128. -/

/-- The six characters of `textwrap`'s `_whitespace` string
(`"\t\n\x0b\x0c\r "`). -/
def twWs (c : Nat) : Bool :=
  c == 9 || c == 10 || c == 11 || c == 12 || c == 13 || c == 32

/-- Regex class `\w` (ASCII range): letters, digits, underscore. -/
def twWord (c : Nat) : Bool :=
  (48 ≤ c && c ≤ 57) || (65 ≤ c && c ≤ 90) || (97 ≤ c && c ≤ 122) || c == 95

/-- Regex class `[^\d\W]` (ASCII range): word characters except digits. -/
def twLetter (c : Nat) : Bool :=
  (65 ≤ c && c ≤ 90) || (97 ≤ c && c ≤ 122) || c == 95

/-- Regex class `word_punct` of the `wordsep_re` pattern: word characters
plus exclamation mark, double quote, single quote, ampersand, period,
comma and question mark. -/
def twWordPunct (c : Nat) : Bool :=
  twWord c || c == 33 || c == 34 || c == 39 || c == 38 || c == 46 || c == 44 || c == 63

/-- Python `str.expandtabs(8)`: each tab inserts spaces up to the next
multiple of 8; LF and CR reset the column; every other character advances
it by one.  After a tab the column is a multiple of 8, so restarting the
count at 0 is exact. -/
def expandTabsGo (col : Nat) : List Nat → List Nat
  | [] => []
  | 9 :: rest => List.replicate (8 - col % 8) 32 ++ expandTabsGo 0 rest
  | 10 :: rest => 10 :: expandTabsGo 0 rest
  | 13 :: rest => 13 :: expandTabsGo 0 rest
  | c :: rest => c :: expandTabsGo (col + 1) rest

/-- Python `str.expandtabs(8)` on a whole string. -/
def expandTabs (s : List Nat) : List Nat := expandTabsGo 0 s

/-- `TextWrapper._munge_whitespace`: expand tabs, then translate each of the
remaining `_whitespace` characters (LF, VT, FF, CR) to a space. -/
def mungeWhitespace (s : List Nat) : List Nat :=
  (expandTabs s).map (fun c => if twWs c then 32 else c)

/-- Lookbehind of the "hyphenated word" branch of `wordsep_re` combined with
its lookahead, at a boundary whose left context (nearest character first) is
`lctx` and whose remaining input is `rest`: the next character is a hyphen
preceded by `letter letter` or `letter - letter`, and followed by
`letter -? letter`. -/
def hyphBreak (lctx rest : List Nat) : Bool :=
  match rest with
  | 45 :: tl =>
    (match lctx with
     | a :: b :: _ => (twLetter a && twLetter b) ||
         (twLetter a && b == 45 && (match lctx with
                                    | _ :: _ :: c :: _ => twLetter c
                                    | _ => false))
     | _ => false) &&
    (match tl with
     | x :: y :: z :: _ => twLetter x && (twLetter y || (y == 45 && twLetter z))
     | [x, y] => twLetter x && twLetter y
     | _ => false)
  | _ => false

/-- "End of word" branch of `wordsep_re`: lookahead for whitespace or the
end of the input. -/
def endOfWord (rest : List Nat) : Bool :=
  match rest with
  | [] => true
  | c :: _ => twWs c

/-- "Em-dash lookahead" branch of `wordsep_re`: the previous character is
word punctuation and the input continues with two or more hyphens followed
by a word character. -/
def emDashAhead (lctx rest : List Nat) : Bool :=
  (match lctx with
   | p :: _ => twWordPunct p
   | [] => false) &&
  (let run := rest.takeWhile (fun c => c == 45)
   2 ≤ run.length && (match rest.drop run.length with
                      | c :: _ => twWord c
                      | [] => false))

/-- Length of the "word" chunk starting the input: the lazy `nws+?` of
`wordsep_re` grows one character at a time until the hyphenated-word,
end-of-word or em-dash-lookahead alternative succeeds (tried in that order;
the hyphenated alternative also consumes the hyphen). `k` characters are
already consumed and recorded (nearest first) in `lctx`. -/
def wordLenGo (fuel : Nat) (lctx rest : List Nat) (k : Nat) : Nat :=
  match fuel with
  | 0 => k
  | fuel + 1 =>
    if hyphBreak lctx rest then k + 1
    else if endOfWord rest then k
    else if emDashAhead lctx rest then k
    else match rest with
         | [] => k
         | c :: tl => wordLenGo fuel (c :: lctx) tl (k + 1)

/-- One top-level match of `wordsep_re` at the current position: returns the
chunk.  `lctx` is the full left context, nearest character first (regex
lookbehind may inspect text before the start of the match). -/
def nextChunk (lctx rest : List Nat) : List Nat :=
  match rest with
  | [] => []
  | c :: tl =>
    if twWs c then rest.takeWhile twWs
    else
      let run := rest.takeWhile (fun d => d == 45)
      if (match lctx with
          | p :: _ => twWordPunct p
          | [] => false) && 2 ≤ run.length &&
         (match rest.drop run.length with
          | d :: _ => twWord d
          | [] => false) then run
      else rest.take (wordLenGo rest.length (c :: lctx) tl 1)

/-- `TextWrapper._split`: cut the munged text into chunks by repeated
application of `wordsep_re` (empty pieces cannot arise: every chunk is
nonempty). -/
def splitChunksGo (fuel : Nat) (lctx rest : List Nat) : List (List Nat) :=
  match fuel with
  | 0 => []
  | fuel + 1 =>
    match rest with
    | [] => []
    | _ =>
      let c := nextChunk lctx rest
      match c with
      | [] => []
      | _ => c :: splitChunksGo fuel (c.reverse ++ lctx) (rest.drop c.length)

/-- `TextWrapper._split_chunks`: munge whitespace, then split. -/
def splitChunks (text : List Nat) : List (List Nat) :=
  let t := mungeWhitespace text
  splitChunksGo (t.length + 1) [] t

/-- Python `chunk.strip() == ''`: the chunk is empty or all Python
whitespace (`_wrap_chunks` uses full `str.strip`, not the six-character
regex class). -/
def stripEmpty (chunk : List Nat) : Bool :=
  chunk.all pyIsSpace

/-- Python `chunk.rfind` of a hyphen over `chunk[0:lim]`: the greatest index
below `lim` holding a hyphen, if any. -/
def rfindHyphen (chunk : List Nat) (lim : Nat) : Option Nat :=
  ((chunk.take lim).reverse.findIdx? (fun c => c == 45)).map
    (fun j => (chunk.take lim).length - 1 - j)

/-- The inner `while` of `_wrap_chunks`: greedily move chunks onto the
current line while the running length stays within `width`.  Returns the
line chunks, the final length and the remaining chunks. -/
def popFits (width curLen : Nat) : List (List Nat) → (List (List Nat) × Nat × List (List Nat))
  | [] => ([], curLen, [])
  | c :: rest =>
    if curLen + c.length ≤ width then
      let r := popFits width (curLen + c.length) rest
      (c :: r.1, r.2)
    else ([], curLen, c :: rest)

/-- `TextWrapper._handle_long_word` with `break_long_words=True` and
`break_on_hyphens=True`: chop the head chunk at `space_left`, or just after
the last hyphen before `space_left` when that hyphen is preceded by a
non-hyphen. -/
def handleLongWord (width curLen : Nat) (chunks curLine : List (List Nat)) :
    (List (List Nat) × List (List Nat)) :=
  match chunks with
  | [] => (curLine, [])
  | chunk :: rest =>
    let spaceLeft := if width < 1 then 1 else width - curLen
    let endN :=
      if spaceLeft < chunk.length then
        match rfindHyphen chunk spaceLeft with
        | some h =>
          if 0 < h ∧ (chunk.take h).any (fun c => !(c == 45)) then h + 1 else spaceLeft
        | none => spaceLeft
      else spaceLeft
    (curLine ++ [chunk.take endN], chunk.drop endN :: rest)

/-- Drop a single trailing all-whitespace chunk from the current line
(`if self.drop_whitespace and cur_line and cur_line[-1].strip() == ''`). -/
def dropTrailingWs (curLine : List (List Nat)) : List (List Nat) :=
  match curLine.getLast? with
  | some c => if stripEmpty c then curLine.dropLast else curLine
  | none => curLine

/-- One iteration of the main loop of `TextWrapper._wrap_chunks` applied to
`chunks1` (the chunk list after the conditional leading-whitespace drop):
fill the current line greedily, break an over-long head chunk, drop one
trailing whitespace chunk.  Returns the current line (as chunks) and the
remaining chunk list. -/
def wrapStep (width : Nat) (chunks1 : List (List Nat)) :
    (List (List Nat) × List (List Nat)) :=
  let p := popFits width 0 chunks1
  let q :=
    match p.2.2 with
    | c :: _ => if width < c.length then handleLongWord width p.2.1 p.2.2 p.1
                else (p.1, p.2.2)
    | [] => (p.1, [])
  (dropTrailingWs q.1, q.2)

/-- The main loop of `TextWrapper._wrap_chunks` (with `max_lines=None` and
empty indents).  `emitted` records whether any line has been produced, which
gates the leading-whitespace drop.  The fuel strictly exceeds the number of
loop iterations (each iteration removes a chunk or shortens the head chunk). -/
def wrapChunksGo (width : Nat) : Nat → Bool → List (List Nat) → List (List Nat)
  | 0, _, _ => []
  | _ + 1, _, [] => []
  | fuel + 1, emitted, c0 :: rest0 =>
    let s := wrapStep width (if stripEmpty c0 && emitted then rest0 else c0 :: rest0)
    if s.1.isEmpty then wrapChunksGo width fuel emitted s.2
    else s.1.flatten :: wrapChunksGo width fuel true s.2

/-- `textwrap.wrap(text, width)` with the default `TextWrapper` options. -/
def pyWrap (width : Nat) (text : List Nat) : List (List Nat) :=
  let chunks := splitChunks text
  wrapChunksGo width ((chunks.map List.length).sum + chunks.length + 1) false chunks

/-! ### Decimal formatting (Python `str(n)` and `"%010d" % n`) -/

/-- Byte of a decimal digit. -/
def digitByte (d : Nat) : Nat := 48 + d

/-- Decimal digits of `n`, most significant first, produced with enough
fuel; `natReprB` instantiates the fuel so that it never runs out. -/
def decDigits : Nat → Nat → List Nat
  | 0, _ => []
  | fuel + 1, n =>
    if n < 10 then [digitByte n] else decDigits fuel (n / 10) ++ [digitByte (n % 10)]

/-- Python `str(n)` for a nonnegative integer, as ASCII bytes. -/
def natReprB (n : Nat) : List Nat := decDigits (n + 1) n

/-- Numeric value of a big-endian list of decimal digit bytes. -/
def decValB (ds : List Nat) : Nat := ds.foldl (fun a c => 10 * a + (c - 48)) 0

/-- Python `"%010d" % n` (used for xref offsets, source line 102): pad the
decimal representation to at least ten digits with leading zeros. -/
def pad10 (n : Nat) : List Nat :=
  List.replicate (10 - (natReprB n).length) 48 ++ natReprB n

/-! ### Page geometry constants (source lines 22-29) -/

def pageWidth : Nat := 612
def pageHeight : Nat := 792
def pageMargin : Nat := 54
def fontSize : Nat := 12
def pdfLeading : Nat := 16
def maxChars : Nat := 90

/-- Source lines 27-29: `usable_lines = int((height - 2*margin) // leading) - 1`,
then clamped below by 10. -/
def usable_lines : Nat :=
  let u := (pageHeight - 2 * pageMargin) / pdfLeading - 1
  if u < 10 then 10 else u

/-! ### Line assembly (source lines 31-39) -/

/-- Source line 20: `[line.rstrip() for line in plain.split("\n")]` applied
to the backtick-free, CRLF-normalized text of lines 17-19. -/
def linesIn (md : List Nat) : List (List Nat) :=
  (splitLF (removeBackticks (replaceCRLF md))).map pyRstrip

/-- Source lines 32-39, body of the loop over `lines_in`: strip markers,
sanitize, then either record one empty line or the wrapped physical lines
(`textwrap.wrap(stripped, width=max_chars) or [""]`). -/
def processLine (raw : List Nat) : List (List Nat) :=
  let stripped := sanitize_for_pdf (stripMarkers raw)
  if stripped.isEmpty then [[]]
  else match pyWrap maxChars stripped with
       | [] => [[]]
       | ws => ws

/-- The flat list `lines` of physical lines for the whole document. -/
def allLines (md : List Nat) : List (List Nat) :=
  (linesIn md).flatMap processLine

/-- Fuel-driven chunking: each step removes the next `k + 1` elements as a
chunk.  The fuel bounds the number of chunks; `chunksOfSucc` supplies the
list length, which always suffices. -/
def chunksGo (k : Nat) : Nat → List α → List (List α)
  | _, [] => []
  | fuel + 1, x :: xs => (x :: xs.take k) :: chunksGo k fuel (xs.drop k)
  | 0, _ :: _ => []

/-- Chunks of size `k + 1` of a list, in order: transcription of
`[lines[i:i+usable_lines] for i in range(0, len(lines), usable_lines)]`
for chunk size `k + 1 = usable_lines`. -/
def chunksOfSucc (k : Nat) (l : List α) : List (List α) :=
  chunksGo k l.length l

/-- Source line 41: the chunked pages, with `or [[]]` turning an empty
chunk list into a single empty page. -/
def paginate (l : List (List Nat)) : List (List (List Nat)) :=
  let cs := chunksOfSucc (usable_lines - 1) l
  if cs.isEmpty then [[]] else cs

/-- The pages of the document built from input `md`. -/
def pagesOf (md : List Nat) : List (List (List Nat)) :=
  paginate (allLines md)

/-! ### Content streams (`make_page`, source lines 43-60) -/

/-- Source line 54: escape backslash, then left parenthesis, then right
parenthesis (codepoints 92, 40, 41). -/
def escapeLine (line : List Nat) : List Nat :=
  strReplaceChar (strReplaceChar (strReplaceChar line 92 [92, 92]) 40 [92, 40]) 41 [92, 41]

/-- Source lines 52-58: for each page line, `T*` before every line but the
first, then the parenthesized show-text operator. -/
def tjOps (first : Bool) : List (List Nat) → List (List Nat)
  | [] => []
  | line :: rest =>
    let op := A "(" ++ escapeLine line ++ A ") Tj"
    if first then op :: tjOps false rest
    else A "T*" :: op :: tjOps false rest

/-- Python `"\n".join(...)` on a list of strings. -/
def joinNL (ls : List (List Nat)) : List Nat :=
  match ls with
  | [] => []
  | l :: rest => l ++ (rest.flatMap (fun x => 10 :: x))

/-- Python `.encode("ascii", "ignore")`: keep only codepoints below 128. -/
def encodeAsciiIgnore (s : List Nat) : List Nat :=
  s.filter (fun c => c < 128)

/-- `make_page` (source lines 43-60): the content stream bytes of one page.
`start_x = margin = 54`, `start_y = height - margin = 738`. -/
def make_page (pageLines : List (List Nat)) : List Nat :=
  let contentLines :=
    [A "BT",
     A "/F1 " ++ natReprB fontSize ++ A " Tf",
     natReprB pageMargin ++ A " " ++ natReprB (pageHeight - pageMargin) ++ A " Td",
     natReprB pdfLeading ++ A " TL"] ++
    tjOps true pageLines ++ [A "ET"]
  encodeAsciiIgnore (joinNL contentLines)

/-! ### Object graph (source lines 62-83) -/

/-- Object 1 (source line 72). -/
def catalogObj : List Nat := A "<< /Type /Catalog /Pages 2 0 R >>"

/-- Object 2 of the first pass, the placeholder page tree (source line 73). -/
def pagesPlaceholder : List Nat := A "<< /Type /Pages /Kids [] /Count 0 >>"

/-- Object 3 (source line 74). -/
def fontObj : List Nat :=
  A "<< /Type /Font /Subtype /Type1 /BaseFont /Helvetica /Name /F1 >>"

/-- The identifier returned by `add_object` for the font (always 3). -/
def fontId : Nat := 3

/-- Source line 79: the content-stream object wrapping `stream`. -/
def contentObj (stream : List Nat) : List Nat :=
  A "<< /Length " ++ natReprB stream.length ++ A " >>\nstream\n" ++
    stream ++ A "\nendstream\n"

/-- Source line 81: the page dictionary referencing content object
`contentId` (the parent is hard-coded as object 2, the font as object 3). -/
def pageDict (contentId : Nat) : List Nat :=
  A "<< /Type /Page /Parent 2 0 R /MediaBox [0 0 " ++ natReprB pageWidth ++
    A " " ++ natReprB pageHeight ++ A "] /Resources << /Font << /F1 " ++
    natReprB fontId ++ A " 0 R >> /Contents " ++ natReprB contentId ++ A " 0 R >>"

/-- Source lines 76-83: for each page, append the content object and the
page object; `nid` is the next object identifier.  Returns the appended
objects and the page identifiers. -/
def buildPageObjs : List (List (List Nat)) → Nat → (List (List Nat) × List Nat)
  | [], _ => ([], [])
  | pg :: rest, nid =>
    let stream := make_page pg
    let r := buildPageObjs rest (nid + 2)
    (contentObj stream :: pageDict nid :: r.1, (nid + 1) :: r.2)

/-- The object list of the first pass: catalog, placeholder page tree,
font, then the per-page objects starting at identifier 4. -/
def objectsFirst (md : List Nat) : List (List Nat) :=
  [catalogObj, pagesPlaceholder, fontObj] ++ (buildPageObjs (pagesOf md) 4).1

/-- The page object identifiers (`page_ids`). -/
def pageIds (md : List Nat) : List Nat :=
  (buildPageObjs (pagesOf md) 4).2

/-- Python `" ".join(...)`. -/
def joinSpace (ls : List (List Nat)) : List Nat :=
  match ls with
  | [] => []
  | l :: rest => l ++ (rest.flatMap (fun x => 32 :: x))

/-- Source line 90: `kids_str = " ".join(f"{pid} 0 R" for pid in page_ids)`. -/
def kidsStr (md : List Nat) : List Nat :=
  joinSpace ((pageIds md).map (fun pid => natReprB pid ++ A " 0 R"))

/-- Source line 91: the corrected page-tree object. -/
def pagesObjFinal (md : List Nat) : List Nat :=
  A "<< /Type /Pages /Kids [" ++ kidsStr md ++ A "] /Count " ++
    natReprB (pageIds md).length ++ A " >>"

/-- Source line 92: `objects2 = [catalog, pages_obj] + objects[2:]`. -/
def objectsFinal (md : List Nat) : List (List Nat) :=
  [catalogObj, pagesObjFinal md] ++ (objectsFirst md).drop 2

/-! ### Serialization (source lines 85-108) -/

/-- The file header bytes `%PDF-1.4\n%\xe2\xe3\xcf\xd3\n` (source line 86). -/
def fileHeader : List Nat := A "%PDF-1.4" ++ [10, 37, 226, 227, 207, 211, 10]

/-- The header text of object `i`: `f"{i} 0 obj\n"`. -/
def objHeaderB (i : Nat) : List Nat := natReprB i ++ A " 0 obj\n"

/-- Source lines 87-89 and 95-97: append each object as header, body and
`endobj\n`, recording the output length before each object as its offset.
Returns the output bytes and the offsets. -/
def emitLoop : Nat → List (List Nat) → List Nat → (List Nat × List Nat)
  | _, [], pdf => (pdf, [])
  | i, o :: rest, pdf =>
    let off := pdf.length
    let r := emitLoop (i + 1) rest (pdf ++ objHeaderB i ++ o ++ A "endobj\n")
    (r.1, off :: r.2)

/-- The body of the output: header plus all objects of the second pass. -/
def bodyBytes (md : List Nat) : List Nat :=
  (emitLoop 1 (objectsFinal md) fileHeader).1

/-- The recorded xref offsets of the second pass (source line 96). -/
def xrefOffsets (md : List Nat) : List Nat :=
  (emitLoop 1 (objectsFinal md) fileHeader).2

/-- The output bytes of the first, discarded serialization pass
(source lines 85-89). -/
def firstPassBytes (md : List Nat) : List Nat :=
  (emitLoop 1 (objectsFirst md) fileHeader).1

/-- Source line 98: `xref_start = len(pdf)`. -/
def xrefStart (md : List Nat) : Nat := (bodyBytes md).length

/-- Source lines 99-102: the xref section. -/
def xrefSection (md : List Nat) : List Nat :=
  A "xref\n0 " ++ natReprB ((objectsFinal md).length + 1) ++ A "\n" ++
    A "0000000000 65535 f \n" ++
    (xrefOffsets md).flatMap (fun off => pad10 off ++ A " 00000 n \n")

/-- Source lines 103-107: trailer, startxref and EOF marker. -/
def trailerBytes (md : List Nat) : List Nat :=
  A "trailer\n" ++
    A "<< /Size " ++ natReprB ((objectsFinal md).length + 1) ++ A " /Root 1 0 R >>\n" ++
    A "startxref\n" ++ natReprB (xrefStart md) ++ A "\n" ++ A "%%EOF"

/-- `markdown_to_basic_pdf_bytes` (source lines 15-108): the full document
bytes.  The first serialization pass (lines 85-89) computes `firstPassBytes`
and is then discarded by the reassignments at lines 93-94. -/
def markdown_to_basic_pdf_bytes (md : List Nat) : List Nat :=
  bodyBytes md ++ xrefSection md ++ trailerBytes md

/-! ### Helper lemmas: decimal formatting -/

theorem decDigits_spec (fuel : Nat) : ∀ n, n < fuel →
    decDigits fuel n ≠ [] ∧ (∀ c ∈ decDigits fuel n, 48 ≤ c ∧ c ≤ 57) ∧
      decValB (decDigits fuel n) = n := by
  induction fuel with
  | zero => intro n h; omega
  | succ fuel ih =>
    intro n h
    by_cases h10 : n < 10
    · refine ⟨by simp [decDigits, h10], ?_, ?_⟩
      · intro c hc
        simp [decDigits, h10, digitByte] at hc
        omega
      · simp [decDigits, h10, decValB, digitByte]
    · have hdiv : n / 10 < fuel := by
        have h1 : n / 10 < n := Nat.div_lt_self (by omega) (by omega)
        omega
      obtain ⟨hne, hdig, hval⟩ := ih (n / 10) hdiv
      refine ⟨by simp [decDigits, h10], ?_, ?_⟩
      · intro c hc
        simp only [decDigits, if_neg h10, List.mem_append, List.mem_singleton] at hc
        rcases hc with hc | hc
        · exact hdig c hc
        · have : n % 10 < 10 := Nat.mod_lt _ (by omega)
          simp [hc, digitByte]; omega
      · simp only [decDigits, if_neg h10, decValB, List.foldl_append]
        have : List.foldl (fun a c => 10 * a + (c - 48)) (n / 10) [digitByte (n % 10)] =
            10 * (n / 10) + n % 10 := by
          simp [digitByte]
        rw [show List.foldl (fun a c => 10 * a + (c - 48)) 0 (decDigits fuel (n / 10)) = n / 10
              from hval] at *
        simp only [List.foldl_cons, List.foldl_nil, digitByte]
        omega

theorem natReprB_ne_nil (n : Nat) : natReprB n ≠ [] :=
  (decDigits_spec (n + 1) n (Nat.lt_succ_self n)).1

theorem natReprB_digits (n : Nat) : ∀ c ∈ natReprB n, 48 ≤ c ∧ c ≤ 57 :=
  (decDigits_spec (n + 1) n (Nat.lt_succ_self n)).2.1

theorem decValB_natReprB (n : Nat) : decValB (natReprB n) = n :=
  (decDigits_spec (n + 1) n (Nat.lt_succ_self n)).2.2

theorem foldl_dec_replicate_zero (z : Nat) :
    List.foldl (fun a c => 10 * a + (c - 48)) 0 (List.replicate z 48) = 0 := by
  induction z with
  | zero => rfl
  | succ z ih => simpa [List.replicate_succ] using ih

theorem decValB_pad10 (n : Nat) : decValB (pad10 n) = n := by
  have h := decValB_natReprB n
  simp only [pad10, decValB, List.foldl_append, foldl_dec_replicate_zero] at *
  exact h

/-! ### C7: sanitizer output range -/

/-- C7, counterexample: the claim says every character of the sanitizer's
output lies in the printable ASCII range, but the sanitizer passes ASCII
control characters through unchanged: on input BEL (codepoint 7) the output
is BEL again, which is not printable (printable ASCII is 32-126). -/
theorem c7_cex :
    sanitize_for_pdf [7] = [7] ∧ ¬ (∀ c ∈ sanitize_for_pdf [7], 32 ≤ c ∧ c ≤ 126) := by
  decide

/-- C7, amended: every codepoint of the sanitizer's output is below 128
(the fixed table maps typographic characters to ASCII strings and the final
pass replaces every remaining codepoint at or above 128 by a question
mark); the output need not be printable, since ASCII control characters
below 128 are preserved. -/
theorem c7_sanitize_below_128 (s : List Nat) : ∀ c ∈ sanitize_for_pdf s, c < 128 := by
  intro c hc
  simp only [sanitize_for_pdf, List.mem_map] at hc
  obtain ⟨x, _, hx⟩ := hc
  by_cases h : x < 128
  · rw [← hx]; simp only [if_pos h]; exact h
  · rw [← hx]; simp [h]

/-- Witness for `c7_sanitize_below_128` at the concrete input string
consisting of the single letter `a`. -/
theorem c7_sanitize_below_128_witness :
    97 ∈ sanitize_for_pdf [97] ∧ (97 : Nat) < 128 :=
  ⟨by decide, c7_sanitize_below_128 [97] 97 (by decide)⟩

/-! ### C5: markup stripping -/

/-- C5, counterexample: the claim says exactly one single leading blockquote
marker is removed and nested occurrences are preserved, but on the line
`>> a` the stripper removes the entire leading run, yielding `a` rather
than `> a`. -/
theorem c5_cex :
    stripMarkers (A ">> a") = A "a" ∧ stripMarkers (A ">> a") ≠ A "> a" := by
  decide

/-- C5, amended: the stripper removes a (possibly empty) leading prefix
consisting only of marker characters and spaces — the maximal leading run
over the set of hash and space, then over asterisk and space, then over
hyphen and space, then over greater-than and space, in that fixed order —
and the remainder of the line is kept verbatim, so mid-line marker
characters are preserved as literal text; backticks are removed globally
from the whole text beforehand (source lines 18-19). -/
theorem c5_strip_only_leading_markers (raw : List Nat) :
    ∃ p, raw = p ++ stripMarkers raw ∧
      ∀ c ∈ p, c = 35 ∨ c = 42 ∨ c = 45 ∨ c = 62 ∨ c = 32 := by
  have step : ∀ (ks : List Nat) (s : List Nat), ∃ p, s = p ++ pyLstrip ks s ∧
      ∀ c ∈ p, c ∈ ks := by
    intro ks s
    refine ⟨s.takeWhile (fun c => ks.contains c), ?_, ?_⟩
    · exact (List.takeWhile_append_dropWhile _ s).symm
    · intro c hc
      have := List.mem_takeWhile_imp hc
      exact List.mem_of_elem_eq_true (by simpa using this)
  obtain ⟨p1, he1, hm1⟩ := step [35, 32] raw
  obtain ⟨p2, he2, hm2⟩ := step [42, 32] (pyLstrip [35, 32] raw)
  obtain ⟨p3, he3, hm3⟩ := step [45, 32] (pyLstrip [42, 32] (pyLstrip [35, 32] raw))
  obtain ⟨p4, he4, hm4⟩ :=
    step [62, 32] (pyLstrip [45, 32] (pyLstrip [42, 32] (pyLstrip [35, 32] raw)))
  refine ⟨p1 ++ p2 ++ p3 ++ p4, ?_, ?_⟩
  · have hsm : stripMarkers raw =
        pyLstrip [62, 32] (pyLstrip [45, 32] (pyLstrip [42, 32] (pyLstrip [35, 32] raw))) := rfl
    rw [hsm]
    conv_lhs => rw [he1, he2, he3, he4]
    simp [List.append_assoc]
  · intro c hc
    simp only [List.mem_append] at hc
    rcases hc with ((h | h) | h) | h
    · have := hm1 c h; simp at this; omega
    · have := hm2 c h; simp at this; omega
    · have := hm3 c h; simp at this; omega
    · have := hm4 c h; simp at this; omega

/-! ### C6: escaping order -/

/-- The simultaneous one-character escaping map: backslash, left and right
parentheses each receive a preceding backslash, all other characters pass
through. -/
def escChar (c : Nat) : List Nat :=
  if c = 92 then [92, 92] else if c = 40 then [92, 40] else
    if c = 41 then [92, 41] else [c]

theorem strReplaceChar_append (a b : List Nat) (k : Nat) (v : List Nat) :
    strReplaceChar (a ++ b) k v = strReplaceChar a k v ++ strReplaceChar b k v := by
  simp [strReplaceChar]

/-- C6: escaping a line by the three successive replacements of source line
54 — backslash first, then left parenthesis, then right parenthesis — is
the simultaneous per-character map `escChar`: each input character is
escaped exactly once and the backslashes inserted by the first step are
never re-escaped by the later steps.  In particular a line containing
`(value)` is emitted with both parentheses escaped and nothing
double-escaped. -/
theorem c6_escape_order :
    (∀ s, escapeLine s = s.flatMap escChar) ∧
      escapeLine (A "(value)") = A "\\(value\\)" := by
  constructor
  · intro s
    induction s with
    | nil => rfl
    | cons c t ih =>
      have expand : escapeLine (c :: t) =
          strReplaceChar (strReplaceChar (strReplaceChar [c] 92 [92, 92]) 40 [92, 40]) 41
              [92, 41] ++ escapeLine t := by
        simp only [escapeLine, show (c :: t) = [c] ++ t from rfl, strReplaceChar_append]
      rw [expand, ih, show (c :: t).flatMap escChar = escChar c ++ t.flatMap escChar by simp]
      congr 1
      by_cases h92 : c = 92
      · subst h92; rfl
      · by_cases h40 : c = 40
        · subst h40; rfl
        · by_cases h41 : c = 41
          · subst h41; rfl
          · simp [strReplaceChar, escChar, h92, h40, h41]
  · decide

/-! ### C8: pagination -/

theorem chunksGo_join (k : Nat) : ∀ (fuel : Nat) (l : List (List Nat)),
    l.length ≤ fuel → (chunksGo k fuel l).flatten = l := by
  intro fuel
  induction fuel with
  | zero =>
    intro l h
    have : l = [] := List.length_eq_zero.mp (Nat.le_zero.mp h)
    subst this; rfl
  | succ fuel ih =>
    intro l h
    match l with
    | [] => rfl
    | x :: xs =>
      simp only [chunksGo, List.flatten_cons]
      rw [ih (xs.drop k) (by
        simp only [List.length_drop]
        simp only [List.length_cons] at h
        omega)]
      simp [List.take_append_drop]

theorem chunksGo_length (k : Nat) : ∀ (fuel : Nat) (l : List (List Nat)),
    l.length ≤ fuel → (chunksGo k fuel l).length = (l.length + k) / (k + 1) := by
  intro fuel
  induction fuel with
  | zero =>
    intro l h
    have : l = [] := List.length_eq_zero.mp (Nat.le_zero.mp h)
    subst this
    simp [chunksGo, Nat.div_eq_of_lt (by omega : k < k + 1)]
  | succ fuel ih =>
    intro l h
    match l with
    | [] => simp [chunksGo, Nat.div_eq_of_lt (by omega : k < k + 1)]
    | x :: xs =>
      simp only [chunksGo, List.length_cons]
      rw [ih (xs.drop k) (by
        simp only [List.length_drop]
        simp only [List.length_cons] at h
        omega)]
      simp only [List.length_drop]
      rcases Nat.le_total k xs.length with hk | hk
      · have h1 : xs.length - k + k = xs.length := by omega
        rw [h1]
        have h2 : xs.length + 1 + k = xs.length + (k + 1) := by omega
        rw [h2, Nat.add_div_right _ (by omega)]
      · have h1 : xs.length - k = 0 := by omega
        rw [h1, Nat.zero_add]
        have h2 : k / (k + 1) = 0 := Nat.div_eq_of_lt (by omega)
        have h3 : xs.length / (k + 1) = 0 := Nat.div_eq_of_lt (by omega)
        have h4 : xs.length + 1 + k = xs.length + (k + 1) := by omega
        rw [h2, h4, Nat.add_div_right _ (by omega), h3]

/-- C8: with page height 792, margin 54 and leading 16 the paginator uses
`usable_lines = max(10, floor((792 - 108) / 16) - 1) = 41`, and partitions
the flat physical-line sequence into consecutive order-preserving chunks of
that size: the number of pages is the ceiling of `n / 41` with a minimum of
one page (a single page with zero lines) when the sequence is empty, and
concatenating the pages in order restores the original sequence. -/
theorem c8_pagination :
    usable_lines = 41 ∧
      ∀ l : List (List Nat),
        (paginate l).length = max 1 ((l.length + 40) / 41) ∧
          (paginate l).flatten = l := by
  refine ⟨by decide, ?_⟩
  intro l
  have hu : usable_lines - 1 = 40 := by decide
  match l with
  | [] => constructor <;> decide
  | x :: xs =>
    have hlen : (chunksOfSucc (usable_lines - 1) (x :: xs)).length =
        ((x :: xs).length + 40) / 41 := by
      rw [hu, chunksOfSucc, chunksGo_length 40 _ _ (Nat.le_refl _)]
    have hne : ¬ (chunksOfSucc (usable_lines - 1) (x :: xs)).isEmpty := by
      rw [hu]
      simp [chunksOfSucc, chunksGo]
    constructor
    · rw [paginate]
      simp only [hne, if_false, Bool.false_eq_true]
      rw [hlen]
      have hxlen : (x :: xs).length = xs.length + 1 := by simp
      have : 1 ≤ ((x :: xs).length + 40) / 41 :=
        (Nat.le_div_iff_mul_le (by omega)).mpr (by omega)
      omega
    · rw [paginate]
      simp only [hne, if_false, Bool.false_eq_true]
      rw [hu, chunksOfSucc, chunksGo_join 40 _ _ (Nat.le_refl _)]

/-! ### C3: wrapped line lengths -/

theorem popFits_spec (width : Nat) : ∀ (chunks : List (List Nat)) (curLen : Nat),
    curLen ≤ width →
      (popFits width curLen chunks).2.1 ≤ width ∧
        (popFits width curLen chunks).2.1 =
          curLen + (((popFits width curLen chunks).1.map List.length).sum) := by
  intro chunks
  induction chunks with
  | nil => intro curLen h; simp [popFits, h]
  | cons c rest ih =>
    intro curLen h
    by_cases hfit : curLen + c.length ≤ width
    · have := ih (curLen + c.length) hfit
      simp only [popFits, if_pos hfit]
      refine ⟨this.1, ?_⟩
      rw [this.2]
      simp [Nat.add_assoc]
    · simp [popFits, if_neg hfit, h]

theorem rfindHyphen_lt (chunk : List Nat) (lim h : Nat)
    (he : rfindHyphen chunk lim = some h) : h < lim := by
  simp only [rfindHyphen, Option.map_eq_some'] at he
  obtain ⟨j, hj, hval⟩ := he
  have hne : (chunk.take lim).reverse ≠ [] := by
    intro hcon
    rw [hcon] at hj
    simp at hj
  have hlen : 1 ≤ (chunk.take lim).length := by
    rcases Nat.eq_zero_or_pos (chunk.take lim).length with h0 | h0
    · exact absurd (by simpa using List.length_eq_zero.mp h0) hne
    · exact h0
  have hle : (chunk.take lim).length ≤ lim := by
    simp
  omega

theorem handleLongWord_sum (width curLen : Nat) (chunks curLine : List (List Nat))
    (hw : 1 ≤ width) (hcl : curLen ≤ width)
    (hsum : curLen = ((curLine.map List.length).sum)) :
    (((handleLongWord width curLen chunks curLine).1.map List.length).sum) ≤ width := by
  match chunks with
  | [] => simp only [handleLongWord]; omega
  | chunk :: rest =>
    have key : ∀ endN, endN ≤ width - curLen →
        ((((curLine ++ [chunk.take endN]).map List.length).sum) ≤ width) := by
      intro endN he
      rw [List.map_append, List.sum_append]
      simp only [List.map_cons, List.map_nil, List.sum_cons, List.sum_nil]
      have htake : (chunk.take endN).length ≤ endN := by
        simp
      omega
    have hsl : (if width < 1 then 1 else width - curLen) = width - curLen := by
      simp [Nat.not_lt.mpr hw]
    simp only [handleLongWord, hsl]
    split
    next hd =>
      split
      next h heq =>
        split
        next hcond =>
          exact key (h + 1) (by have := rfindHyphen_lt _ _ _ heq; omega)
        next hcond => exact key _ (Nat.le_refl _)
      next heq => exact key _ (Nat.le_refl _)
    next hd => exact key _ (Nat.le_refl _)

theorem dropTrailingWs_sum (curLine : List (List Nat)) :
    (((dropTrailingWs curLine).map List.length).sum) ≤ ((curLine.map List.length).sum) := by
  simp only [dropTrailingWs]
  match h : curLine.getLast? with
  | none => simp
  | some c =>
    by_cases hs : stripEmpty c
    · simp only [hs, if_pos]
      have : curLine.dropLast.Sublist curLine := List.dropLast_sublist curLine
      exact List.Sublist.sum_le_sum (this.map List.length) (by intro x _; omega)
    · simp [hs]

theorem wrapStep_sum (width : Nat) (chunks1 : List (List Nat)) (hw : 1 ≤ width) :
    (((wrapStep width chunks1).1.map List.length).sum) ≤ width := by
  have hps := popFits_spec width chunks1 0 (by omega)
  have hsum0 : (((popFits width 0 chunks1).1.map List.length).sum) ≤ width := by omega
  rcases h22 : (popFits width 0 chunks1).2.2 with _ | ⟨c, rest⟩
  · have hs : wrapStep width chunks1 =
        (dropTrailingWs (popFits width 0 chunks1).1, []) := by
      simp only [wrapStep, h22]
    rw [hs]
    exact le_trans (dropTrailingWs_sum _) hsum0
  · by_cases hlong : width < c.length
    · have hs : wrapStep width chunks1 =
          (dropTrailingWs (handleLongWord width (popFits width 0 chunks1).2.1
            (c :: rest) (popFits width 0 chunks1).1).1,
           (handleLongWord width (popFits width 0 chunks1).2.1
            (c :: rest) (popFits width 0 chunks1).1).2) := by
        simp only [wrapStep, h22, if_pos hlong]
      rw [hs]
      refine le_trans (dropTrailingWs_sum _) ?_
      exact handleLongWord_sum width _ (c :: rest) _ hw hps.1 (by omega)
    · have hs : wrapStep width chunks1 =
          (dropTrailingWs (popFits width 0 chunks1).1, c :: rest) := by
        simp only [wrapStep, h22, if_neg hlong]
      rw [hs]
      exact le_trans (dropTrailingWs_sum _) hsum0

theorem wrapChunksGo_width_le (width : Nat) (hw : 1 ≤ width) :
    ∀ (fuel : Nat) (emitted : Bool) (chunks : List (List Nat)),
      ∀ l ∈ wrapChunksGo width fuel emitted chunks, l.length ≤ width := by
  intro fuel
  induction fuel with
  | zero => intro emitted chunks l hl; simp [wrapChunksGo] at hl
  | succ fuel ih =>
    intro emitted chunks l hl
    match chunks with
    | [] => simp [wrapChunksGo] at hl
    | c0 :: rest0 =>
      simp only [wrapChunksGo] at hl
      set s := wrapStep width (if stripEmpty c0 && emitted then rest0 else c0 :: rest0)
        with hsdef
      by_cases hempty : s.1.isEmpty
      · rw [if_pos hempty] at hl
        exact ih emitted s.2 l hl
      · rw [if_neg hempty] at hl
        rcases List.mem_cons.mp hl with heq | hmem
        · subst heq
          calc s.1.flatten.length = ((s.1.map List.length).sum) := by
                simp [List.length_flatten]
            _ ≤ width := by rw [hsdef]; exact wrapStep_sum width _ hw
        · exact ih true s.2 l hmem

set_option maxRecDepth 200000 in
/-- C3, counterexample: the claim says a single token longer than the width
is emitted verbatim as one unsplit physical line, but `textwrap.wrap` is
called with its default `break_long_words=True`, so a 91-character token is
split at the width boundary into a 90-character line and a 1-character
line. -/
theorem c3_cex :
    pyWrap 90 (List.replicate 91 97) = [List.replicate 90 97, [97]] ∧
      ¬ List.replicate 91 97 ∈ pyWrap 90 (List.replicate 91 97) := by
  constructor
  · decide
  · decide

/-- C3, amended: for input lines wrapped at width 90 every output physical
line has length at most 90 with no exception: a whitespace-delimited token
longer than 90 characters is not emitted verbatim but broken at the width
boundary (or just after an internal hyphen) by the default
`break_long_words` behavior of `textwrap.wrap`. -/
theorem c3_wrap_width_le (text : List Nat) :
    ∀ l ∈ pyWrap 90 text, l.length ≤ 90 := by
  intro l hl
  exact wrapChunksGo_width_le 90 (by omega) _ false (splitChunks text) l hl

set_option maxRecDepth 200000 in
/-- Witness for `c3_wrap_width_le` at a concrete two-word input. -/
theorem c3_wrap_width_le_witness :
    A "hello world" ∈ pyWrap 90 (A "hello world") ∧ (A "hello world").length ≤ 90 :=
  ⟨by decide, c3_wrap_width_le (A "hello world") (A "hello world") (by decide)⟩

/-! ### C2: content-stream length field -/

/-- Decimal digit byte predicate. -/
def isDigitB (c : Nat) : Bool := 48 ≤ c && c ≤ 57

/-- Parse the declared `/Length` value of a content-stream object: the
digits between the literal `<< /Length ` prefix and the ` >>` that starts
the stream keyword line. -/
def extractLength (o : List Nat) : Option Nat :=
  if (A "<< /Length ").isPrefixOf o then
    let rest := o.drop 11
    let ds := rest.takeWhile isDigitB
    if ds.isEmpty then none
    else if (A " >>\nstream\n").isPrefixOf (rest.drop ds.length) then some (decValB ds)
    else none
  else none

/-- Parse the stream body of a content-stream object: the bytes strictly
between the line ending with the `stream` keyword and the newline that
precedes the `endstream` keyword. -/
def extractStream (o : List Nat) : Option (List Nat) :=
  if (A "<< /Length ").isPrefixOf o then
    let rest := o.drop 11
    let ds := rest.takeWhile isDigitB
    let body := rest.drop (ds.length + 11)
    if ds.isEmpty then none
    else if (A " >>\nstream\n").isPrefixOf (rest.drop ds.length) then
      if 11 ≤ body.length ∧ (A "\nendstream\n").isPrefixOf (body.drop (body.length - 11)) then
        some (body.take (body.length - 11))
      else none
    else none
  else none

theorem takeWhile_append_of (p : Nat → Bool) (a b : List Nat)
    (ha : ∀ x ∈ a, p x = true) (hb : b.takeWhile p = []) :
    (a ++ b).takeWhile p = a := by
  induction a with
  | nil => simpa using hb
  | cons x xs ih =>
    have hx : p x = true := ha x (List.mem_cons_self x xs)
    simp only [List.cons_append, List.takeWhile_cons, hx, if_pos]
    rw [ih (fun y hy => ha y (List.mem_cons_of_mem x hy))]

theorem extract_contentObj (s : List Nat) :
    extractLength (contentObj s) = some s.length ∧
      extractStream (contentObj s) = some s := by
  have hform : contentObj s =
      A "<< /Length " ++ (natReprB s.length ++ (A " >>\nstream\n" ++
        (s ++ A "\nendstream\n"))) := by
    simp [contentObj, List.append_assoc]
  have hpre : (A "<< /Length ").isPrefixOf (contentObj s) = true := by
    rw [hform]
    exact List.isPrefixOf_iff_prefix.mpr (List.prefix_append _ _)
  have hrest : (contentObj s).drop 11 =
      natReprB s.length ++ (A " >>\nstream\n" ++ (s ++ A "\nendstream\n")) := by
    rw [hform, show (11 : Nat) = (A "<< /Length ").length from rfl, List.drop_left]
  have htail : (A " >>\nstream\n" ++ (s ++ A "\nendstream\n")).takeWhile isDigitB = [] := by
    rfl
  have hds : ((contentObj s).drop 11).takeWhile isDigitB = natReprB s.length := by
    rw [hrest]
    exact takeWhile_append_of isDigitB _ _
      (fun x hx => by
        have := natReprB_digits s.length x hx
        simp [isDigitB]; omega) htail
  have hdrop : ((contentObj s).drop 11).drop ((natReprB s.length).length) =
      A " >>\nstream\n" ++ (s ++ A "\nendstream\n") := by
    rw [hrest, List.drop_left]
  have hdsne : (natReprB s.length).isEmpty = false :=
    List.isEmpty_eq_false.mpr (natReprB_ne_nil s.length)
  have hpre2 : (A " >>\nstream\n").isPrefixOf
      (((contentObj s).drop 11).drop ((natReprB s.length).length)) = true := by
    rw [hdrop]
    exact List.isPrefixOf_iff_prefix.mpr (List.prefix_append _ _)
  have hbody : ((contentObj s).drop 11).drop ((natReprB s.length).length + 11) =
      s ++ A "\nendstream\n" := by
    rw [← List.drop_drop, hdrop,
      show (11 : Nat) = (A " >>\nstream\n").length from rfl, List.drop_left]
  have hblen : (s ++ A "\nendstream\n").length = s.length + 11 := by
    rw [List.length_append, show (A "\nendstream\n").length = 11 from rfl]
  have hbsub : (s ++ A "\nendstream\n").length - 11 = s.length := by omega
  have hpre3 : (A "\nendstream\n").isPrefixOf
      ((s ++ A "\nendstream\n").drop ((s ++ A "\nendstream\n").length - 11)) = true := by
    rw [hbsub, List.drop_left]
    exact List.isPrefixOf_iff_prefix.mpr (List.prefix_refl _)
  have hneg : ¬ ((natReprB s.length).isEmpty = true) := by
    rw [hdsne]; exact Bool.false_ne_true
  constructor
  · rw [extractLength, if_pos hpre]
    simp only [hds]
    rw [if_neg hneg, if_pos hpre2, decValB_natReprB]
  · rw [extractStream, if_pos hpre]
    simp only [hds]
    rw [hbody, if_neg hneg, if_pos hpre2,
      if_pos ⟨by rw [hblen]; omega, hpre3⟩, hbsub, List.take_left]

/-- C2: for every input text and every page of the resulting document, the
content-stream object declares a `/Length` value that equals the exact
number of bytes of the stream body lying between the `stream` keyword line
and the `endstream` keyword. -/
theorem c2_content_length (md : List Nat) (pg : List (List Nat))
    (_hpg : pg ∈ pagesOf md) :
    extractLength (contentObj (make_page pg)) = some (make_page pg).length ∧
      extractStream (contentObj (make_page pg)) = some (make_page pg) :=
  extract_contentObj (make_page pg)

set_option maxRecDepth 200000 in
/-- Witness for `c2_content_length`: the single page of the document built
from the empty input. -/
theorem c2_content_length_witness :
    extractLength (contentObj (make_page [[]])) = some (make_page [[]]).length ∧
      extractStream (contentObj (make_page [[]])) = some (make_page [[]]) :=
  c2_content_length [] [[]] (by decide)

/-! ### Serializer lemmas (shared by C1, C9, C10) -/

theorem emitLoop_prefix : ∀ (objs : List (List Nat)) (i : Nat) (pdf : List Nat),
    pdf <+: (emitLoop i objs pdf).1 := by
  intro objs
  induction objs with
  | nil => intro i pdf; exact List.prefix_refl pdf
  | cons o rest ih =>
    intro i pdf
    have h1 : (emitLoop i (o :: rest) pdf).1 =
        (emitLoop (i + 1) rest (pdf ++ objHeaderB i ++ o ++ A "endobj\n")).1 := rfl
    rw [h1]
    refine List.IsPrefix.trans ?_ (ih (i + 1) (pdf ++ objHeaderB i ++ o ++ A "endobj\n"))
    exact ⟨objHeaderB i ++ o ++ A "endobj\n", by simp [List.append_assoc]⟩

theorem emitLoop_len : ∀ (objs : List (List Nat)) (i : Nat) (pdf : List Nat),
    (emitLoop i objs pdf).2.length = objs.length := by
  intro objs
  induction objs with
  | nil => intro i pdf; rfl
  | cons o rest ih =>
    intro i pdf
    simp only [emitLoop, List.length_cons]
    rw [ih]

theorem emitLoop_get : ∀ (objs : List (List Nat)) (i : Nat) (pdf : List Nat) (j : Nat)
    (o : List Nat), objs.get? j = some o →
    ∃ off t, (emitLoop i objs pdf).2.get? j = some off ∧
      (emitLoop i objs pdf).1.drop off = objHeaderB (i + j) ++ o ++ A "endobj\n" ++ t := by
  intro objs
  induction objs with
  | nil => intro i pdf j o h; simp at h
  | cons o0 rest ih =>
    intro i pdf j o h
    match j with
    | 0 =>
      have ho : o0 = o := by simpa using h
      subst ho
      obtain ⟨t, ht⟩ :=
        emitLoop_prefix rest (i + 1) (pdf ++ objHeaderB i ++ o0 ++ A "endobj\n")
      refine ⟨pdf.length, t, ?_, ?_⟩
      · simp [emitLoop]
      · have h1 : (emitLoop i (o0 :: rest) pdf).1 =
            (emitLoop (i + 1) rest (pdf ++ objHeaderB i ++ o0 ++ A "endobj\n")).1 := rfl
        rw [h1, ← ht]
        rw [show pdf ++ objHeaderB i ++ o0 ++ A "endobj\n" ++ t =
              pdf ++ (objHeaderB i ++ o0 ++ A "endobj\n" ++ t) by
            simp [List.append_assoc]]
        rw [List.drop_left]
        simp [List.append_assoc, Nat.add_zero]
    | j + 1 =>
      simp only [List.get?_cons_succ] at h
      obtain ⟨off, t, hoff, hdrop⟩ :=
        ih (i + 1) (pdf ++ objHeaderB i ++ o0 ++ A "endobj\n") j o h
      rw [show i + 1 + j = i + (j + 1) by omega] at hdrop
      refine ⟨off, t, ?_, ?_⟩
      · simpa [emitLoop] using hoff
      · have h1 : (emitLoop i (o0 :: rest) pdf).1 =
            (emitLoop (i + 1) rest (pdf ++ objHeaderB i ++ o0 ++ A "endobj\n")).1 := rfl
        rw [h1, hdrop]

theorem objHeaderB_ne_nil (i : Nat) : objHeaderB i ≠ [] := by
  have := natReprB_ne_nil i
  simp only [objHeaderB]
  intro hcon
  exact this (List.append_eq_nil.mp hcon).1

theorem emitLoop_off_le : ∀ (objs : List (List Nat)) (i : Nat) (pdf : List Nat)
    (j off : Nat) (o : List Nat), objs.get? j = some o →
    (emitLoop i objs pdf).2.get? j = some off → off ≤ (emitLoop i objs pdf).1.length := by
  intro objs i pdf j off o hobj hoff
  obtain ⟨off', t, hoff', hdrop⟩ := emitLoop_get objs i pdf j o hobj
  rw [hoff'] at hoff
  injection hoff with hoff
  subst hoff
  by_contra hcon
  push_neg at hcon
  have hnil : (emitLoop i objs pdf).1.drop off' = [] :=
    List.drop_eq_nil_of_le (by omega)
  rw [hnil] at hdrop
  have : objHeaderB (i + j) = [] := by
    cases hh : objHeaderB (i + j) with
    | nil => rfl
    | cons a b => rw [hh] at hdrop; simp at hdrop
  exact objHeaderB_ne_nil (i + j) this

/-- Dropping inside the first component of an append keeps the remainder as
a suffix of the result. -/
theorem drop_append_of_le (a b : List Nat) (n : Nat) (h : n ≤ a.length) :
    (a ++ b).drop n = a.drop n ++ b := by
  rw [List.drop_append_eq_append_drop, Nat.sub_eq_zero_of_le h, List.drop_zero]

/-! ### C1: xref offsets point at object headers -/

/-- C1: for every input text and every object of the serialized document,
the cross-reference entry recorded for that object — the ten-digit
zero-padded decimal written into the xref table — denotes exactly the byte
offset, within the final output byte stream, at which that object's
`<id> 0 obj` header text begins. -/
theorem c1_xref_offsets (md : List Nat) (j off : Nat)
    (hoff : (xrefOffsets md).get? j = some off) :
    decValB (pad10 off) = off ∧
      objHeaderB (j + 1) <+: ((markdown_to_basic_pdf_bytes md).drop off) := by
  refine ⟨decValB_pad10 off, ?_⟩
  have hoffE : (emitLoop 1 (objectsFinal md) fileHeader).2.get? j = some off := hoff
  have hjlt : j < (emitLoop 1 (objectsFinal md) fileHeader).2.length := by
    by_contra hc
    push_neg at hc
    rw [List.get?_eq_none.mpr hc] at hoffE
    exact Option.noConfusion hoffE
  have hj : j < (objectsFinal md).length := by
    rw [emitLoop_len] at hjlt
    exact hjlt
  obtain ⟨o, hobj⟩ : ∃ o, (objectsFinal md).get? j = some o := by
    rw [List.get?_eq_get hj]
    exact ⟨_, rfl⟩
  obtain ⟨off', t, hoff', hdrop⟩ :=
    emitLoop_get (objectsFinal md) 1 fileHeader j o hobj
  have hoffeq : off' = off := by
    rw [hoff'] at hoffE
    injection hoffE
  subst hoffeq
  have hle : off' ≤ (bodyBytes md).length :=
    emitLoop_off_le (objectsFinal md) 1 fileHeader j off' o hobj hoff'
  rw [markdown_to_basic_pdf_bytes, List.append_assoc,
    drop_append_of_le _ _ off' hle]
  rw [show (emitLoop 1 (objectsFinal md) fileHeader).1 = bodyBytes md from rfl] at hdrop
  rw [hdrop]
  rw [show (1 : Nat) + j = j + 1 by omega] at *
  exact ⟨o ++ A "endobj\n" ++ t ++ (xrefSection md ++ trailerBytes md),
    by simp [List.append_assoc]⟩

set_option maxRecDepth 1000000 in
/-- Witness for `c1_xref_offsets`: the first object of the document built
from the empty input, whose recorded offset is 15 (the length of the file
header). -/
theorem c1_xref_offsets_witness :
    decValB (pad10 15) = 15 ∧
      objHeaderB 1 <+: ((markdown_to_basic_pdf_bytes []).drop 15) :=
  c1_xref_offsets [] 0 15 (by decide)

/-! ### C9: object serialization layout -/

set_option maxRecDepth 1000000 in
/-- C9, counterexample: the claim says each object is followed by the exact
terminator `\nendobj\n` (a newline preceding the `endobj` keyword), but the
serializer appends `endobj\n` directly after the object bytes: in the
document built from the empty input, object 1 is serialized as
`1 0 obj\n<< /Type /Catalog /Pages 2 0 R >>endobj\n` — the byte before
`endobj` is `>`, not a newline. -/
theorem c9_cex :
    ((markdown_to_basic_pdf_bytes []).drop 15).take 48 =
        A "1 0 obj\n<< /Type /Catalog /Pages 2 0 R >>endobj\n" ∧
      ¬ (A "\nendobj\n").isPrefixOf ((markdown_to_basic_pdf_bytes []).drop 56) = true := by
  constructor
  · decide
  · decide

/-- C9, amended: for every object emitted in increasing identifier order,
the serializer records the current output length as that object's xref
offset, then appends the header `<id> 0 obj\n`, then the object's
dictionary/stream bytes, then the terminator `endobj\n` appended directly
after the object bytes with no newline inserted before the `endobj` keyword
(content-stream objects end with a newline only because their own bytes end
with `\nendstream\n`). -/
theorem c9_object_layout (md : List Nat) (j : Nat) (o : List Nat)
    (hobj : (objectsFinal md).get? j = some o) :
    ∃ off t, (xrefOffsets md).get? j = some off ∧
      (markdown_to_basic_pdf_bytes md).drop off =
        objHeaderB (j + 1) ++ o ++ A "endobj\n" ++ t := by
  obtain ⟨off, t, hoff, hdrop⟩ := emitLoop_get (objectsFinal md) 1 fileHeader j o hobj
  have hle : off ≤ (bodyBytes md).length :=
    emitLoop_off_le (objectsFinal md) 1 fileHeader j off o hobj hoff
  refine ⟨off, t ++ (xrefSection md ++ trailerBytes md), hoff, ?_⟩
  rw [markdown_to_basic_pdf_bytes, List.append_assoc, drop_append_of_le _ _ off hle]
  rw [show (emitLoop 1 (objectsFinal md) fileHeader).1 = bodyBytes md from rfl] at hdrop
  rw [hdrop, show (1 : Nat) + j = j + 1 by omega]
  simp [List.append_assoc]

set_option maxRecDepth 1000000 in
/-- Witness for `c9_object_layout`: object 1 (the catalog) of the document
built from the empty input. -/
theorem c9_object_layout_witness :
    ∃ off t, (xrefOffsets []).get? 0 = some off ∧
      (markdown_to_basic_pdf_bytes []).drop off =
        objHeaderB 1 ++ catalogObj ++ A "endobj\n" ++ t :=
  c9_object_layout [] 0 catalogObj (by decide)

/-! ### C4: the empty input document -/

/-- Number of positions of `l` at which `pat` occurs as a sublist. -/
def countOcc (pat l : List Nat) : Nat :=
  ((List.range (l.length + 1)).filter (fun i => pat.isPrefixOf (l.drop i))).length

set_option maxRecDepth 1000000 in
/-- C4, counterexample: the claim says the empty input produces a content
stream with zero show-text (`Tj`) operators, but the empty input yields one
page holding one empty line, and `make_page` emits a show-text operator
`() Tj` for that empty line: the content stream contains exactly one `Tj`,
not zero. -/
theorem c4_cex :
    pagesOf [] = [[[]]] ∧ countOcc (A "Tj") (make_page [[]]) ≠ 0 := by
  constructor
  · decide
  · decide

set_option maxRecDepth 1000000 in
/-- C4, amended: for the empty input the document has exactly one page, the
page tree's child list has exactly one entry (`/Kids [5 0 R] /Count 1`),
and the page's content stream is a well-formed begin-text/end-text bracket
containing exactly one show-text operator, which shows the empty string
(`() Tj`) — empty input yields a minimal valid one-page document rather
than an error. -/
theorem c4_empty_input_document :
    (pagesOf []).length = 1 ∧
      pagesObjFinal [] = A "<< /Type /Pages /Kids [5 0 R] /Count 1 >>" ∧
      make_page [[]] = A "BT\n/F1 12 Tf\n54 738 Td\n16 TL\n() Tj\nET" ∧
      countOcc (A "Tj") (make_page [[]]) = 1 ∧
      countOcc (A "BT") (make_page [[]]) = 1 ∧
      countOcc (A "ET") (make_page [[]]) = 1 := by
  refine ⟨by decide, by decide, by decide, by decide, by decide, by decide⟩

/-! ### C10: the first pass is discarded -/

/-- The output of a single append-only serialization pass over the
corrected object list — catalog, filled page-tree object, font, then the
per-page objects — as the specification describes the serializer: header,
each object at its recorded offset, xref section, trailer. -/
def singlePassOutput (md : List Nat) : List Nat :=
  let objs := [catalogObj, pagesObjFinal md, fontObj] ++ (buildPageObjs (pagesOf md) 4).1
  let body := (emitLoop 1 objs fileHeader).1
  let offs := (emitLoop 1 objs fileHeader).2
  body ++
    (A "xref\n0 " ++ natReprB (objs.length + 1) ++ A "\n" ++
      A "0000000000 65535 f \n" ++
      offs.flatMap (fun off => pad10 off ++ A " 00000 n \n")) ++
    (A "trailer\n" ++
      A "<< /Size " ++ natReprB (objs.length + 1) ++ A " /Root 1 0 R >>\n" ++
      A "startxref\n" ++ natReprB body.length ++ A "\n" ++ A "%%EOF")

theorem objectsFinal_eq (md : List Nat) :
    objectsFinal md =
      [catalogObj, pagesObjFinal md, fontObj] ++ (buildPageObjs (pagesOf md) 4).1 := by
  simp [objectsFinal, objectsFirst]

theorem ne_of_get? (l₁ l₂ : List Nat) (n : Nat) (h : l₁.get? n ≠ l₂.get? n) :
    l₁ ≠ l₂ := fun he => h (he ▸ rfl)

theorem pagesOf_ne_nil (md : List Nat) : pagesOf md ≠ [] := by
  rw [pagesOf, paginate]
  by_cases h : (chunksOfSucc (usable_lines - 1) (allLines md)).isEmpty
  · rw [if_pos h]; exact List.cons_ne_nil _ _
  · rw [if_neg h]
    intro hcon
    rw [hcon] at h
    exact h rfl

theorem pageIds_head (md : List Nat) : ∃ rest, pageIds md = 5 :: rest := by
  rw [pageIds]
  rcases hp : pagesOf md with _ | ⟨pg, rest⟩
  · exact absurd hp (pagesOf_ne_nil md)
  · exact ⟨(buildPageObjs rest 6).2, rfl⟩

theorem kidsStr_head (md : List Nat) : ∃ rest, kidsStr md = 53 :: rest := by
  obtain ⟨r, hr⟩ := pageIds_head md
  rw [kidsStr, hr]
  simp only [List.map_cons, joinSpace]
  exact ⟨_, rfl⟩

theorem pagesObjFinal_ne_placeholder (md : List Nat) :
    pagesObjFinal md ≠ pagesPlaceholder := by
  obtain ⟨r, hr⟩ := kidsStr_head md
  apply ne_of_get? _ _ 23
  rw [pagesObjFinal, hr]
  rw [show A "<< /Type /Pages /Kids [" ++ 53 :: r ++ A "] /Count " ++
        natReprB (pageIds md).length ++ A " >>" =
      A "<< /Type /Pages /Kids [" ++ (53 :: r ++ A "] /Count " ++
        natReprB (pageIds md).length ++ A " >>") from by simp [List.append_assoc]]
  rw [List.get?_append_right (by decide),
    show (23 : Nat) - (A "<< /Type /Pages /Kids [").length = 0 from rfl]
  simp only [List.cons_append, List.get?_cons_zero]
  decide

theorem contentObj_ne_placeholder (s : List Nat) :
    contentObj s ≠ pagesPlaceholder := by
  apply ne_of_get? _ _ 4
  rw [contentObj]
  rw [show A "<< /Length " ++ natReprB s.length ++ A " >>\nstream\n" ++ s ++
        A "\nendstream\n" =
      A "<< /Length " ++ (natReprB s.length ++ A " >>\nstream\n" ++ s ++
        A "\nendstream\n") from by simp [List.append_assoc]]
  rw [List.get?_append (by decide)]
  decide

theorem pageDict_ne_placeholder (cid : Nat) :
    pageDict cid ≠ pagesPlaceholder := by
  apply ne_of_get? _ _ 14
  rw [pageDict]
  rw [show A "<< /Type /Page /Parent 2 0 R /MediaBox [0 0 " ++ natReprB pageWidth ++
        A " " ++ natReprB pageHeight ++ A "] /Resources << /Font << /F1 " ++
        natReprB fontId ++ A " 0 R >> /Contents " ++ natReprB cid ++ A " 0 R >>" =
      A "<< /Type /Page /Parent 2 0 R /MediaBox [0 0 " ++ (natReprB pageWidth ++
        A " " ++ natReprB pageHeight ++ A "] /Resources << /Font << /F1 " ++
        natReprB fontId ++ A " 0 R >> /Contents " ++ natReprB cid ++ A " 0 R >>")
      from by simp [List.append_assoc]]
  rw [List.get?_append (by decide)]
  decide

theorem buildPageObjs_no_placeholder : ∀ (pgs : List (List (List Nat))) (nid : Nat),
    pagesPlaceholder ∉ (buildPageObjs pgs nid).1 := by
  intro pgs
  induction pgs with
  | nil => intro nid h; simp [buildPageObjs] at h
  | cons pg rest ih =>
    intro nid h
    simp only [buildPageObjs, List.mem_cons] at h
    rcases h with h | h | h
    · exact contentObj_ne_placeholder (make_page pg) h.symm
    · exact pageDict_ne_placeholder nid h.symm
    · exact ih (nid + 2) h

/-- C10: the first serialization pass of `markdown_to_basic_pdf_bytes` —
the one that emits the placeholder page-tree object
`<< /Type /Pages /Kids [] /Count 0 >>` — is entirely discarded: for every
input the returned bytes equal those of a single append-only pass over the
corrected object list (catalog, filled page-tree object, font and per-page
objects), and while the placeholder is among the first-pass objects, it is
not among the objects serialized into the final output. -/
theorem c10_single_pass (md : List Nat) :
    markdown_to_basic_pdf_bytes md = singlePassOutput md ∧
      pagesPlaceholder ∈ objectsFirst md ∧
      pagesPlaceholder ∉ objectsFinal md := by
  refine ⟨?_, ?_, ?_⟩
  · rw [markdown_to_basic_pdf_bytes, singlePassOutput, bodyBytes, xrefSection,
      trailerBytes, xrefStart, xrefOffsets, bodyBytes, objectsFinal_eq]
  · simp [objectsFirst]
  · rw [objectsFinal_eq]
    intro h
    simp only [List.cons_append, List.nil_append, List.mem_cons] at h
    rcases h with h | h | h | h
    · exact absurd h.symm (by decide)
    · exact pagesObjFinal_ne_placeholder md h.symm
    · exact absurd h.symm (by decide)
    · exact buildPageObjs_no_placeholder (pagesOf md) 4 h

end Blogger
